import Mathlib

/-
Verification of the Airbnb careers scraper (main.go).

The development shallowly embeds the program:
  * `JobPosting`, `titleFilter`, `extractItem`, `processPage` embed the
    per-item extraction and filtering done inside the pagination loop;
  * `runPages` / `runMain` embed the pagination loop of `main`, with the
    sequence of fetch outcomes (network error / HTTP response with status
    and optionally-parsed items) supplied as input;
  * `composeBody`, `composeMessage`, `buildSmtpRequest`, `sendDailyJobEmail`
    embed the notifier `sendDailyJobEmail`;
  * `parseMessageChars` is a mail-message reader modelled from the spec
    (the repository contains no parser), used for the round-trip claim.
-/

/-! ## Definitions: the embedded program -/

/-- Substring test on character lists: `hasInfix pat l` is true iff `pat`
occurs contiguously inside `l`.  Embeds Go `strings.Contains`. -/
def hasInfix (pat : List Char) : List Char → Bool
  | [] => pat.isPrefixOf []
  | c :: cs => pat.isPrefixOf (c :: cs) || hasInfix pat cs

/-- `containsSub s pat` embeds Go `strings.Contains(s, pat)`. -/
def containsSub (s pat : String) : Bool :=
  hasInfix pat.data s.data

/-- JobPosting holds basic info for a job (main.go lines 15-18). -/
structure JobPosting where
  Title : String
  URL : String
deriving DecidableEq

/-- A raw listing item as seen by the loop body: the text of the
`h3.text-size-4 a` link and its optional `href` attribute. -/
structure RawItem where
  text : String
  href : Option String
deriving DecidableEq

/-- The filter of main.go lines 65-71: keep a title containing
"Software Engineer" and none of the six exclusion substrings. -/
def titleFilter (title : String) : Bool :=
  containsSub title "Software Engineer" &&
  !containsSub title "Senior" &&
  !containsSub title "Staff" &&
  !containsSub title "Sr." &&
  !containsSub title "Principal" &&
  !containsSub title "Android" &&
  !containsSub title "iOS"

/-- Go `strings.TrimSpace`: drop leading and trailing whitespace. -/
def trimSpace (s : List Char) : List Char :=
  ((s.dropWhile Char.isWhitespace).reverse.dropWhile Char.isWhitespace).reverse

/-- Extraction of one item (main.go lines 56-61): trim the link text,
default a missing href to the empty string. -/
def extractItem (s : RawItem) : JobPosting :=
  { Title := String.mk (trimSpace s.text.data), URL := s.href.getD "" }

/-- The loop body over one page's items (main.go lines 54-77): extract
each item and keep those passing the title filter, in order. -/
def processPage (items : List RawItem) : List JobPosting :=
  items.filterMap (fun s =>
    if titleFilter (extractItem s).Title then some (extractItem s) else none)

/-- The outcome of fetching one listing page, as observed by the loop body:
either the HTTP GET itself fails (main.go line 32), or a response arrives
with a status code and a body whose HTML parse yields either a list of raw
items or a parse failure (`none`, main.go line 42). -/
inductive FetchOutcome where
  | netError : FetchOutcome
  | response (status : Nat) (doc : Option (List RawItem)) : FetchOutcome
deriving DecidableEq

/-- A successfully fetched, parsed page with the given raw items. -/
def okPage (items : List RawItem) : FetchOutcome :=
  .response 200 (some items)

/-- How a run of `main` ends.  `fatal p` is `log.Fatalf` while handling page
`p` (the process exits; `sendDailyJobEmail` is never reached).  `finished`
records the accumulated postings and the last page fetched when the loop
breaks; `main` then sends the email with exactly those postings.  `starved`
means the supplied list of fetch outcomes ran out before the loop broke. -/
inductive RunResult where
  | fatal (page : Nat) : RunResult
  | finished (jobs : List JobPosting) (pagesFetched : Nat) : RunResult
  | starved (jobs : List JobPosting) : RunResult
deriving DecidableEq

/-- The pagination loop of main.go lines 27-86, driven by the sequence of
fetch outcomes: fatal on network error, non-200 status, or parse failure;
break on a zero-item page before extracting; otherwise extract and filter
the page's items, then break if the page held fewer than 10 raw items. -/
def runPages : List FetchOutcome → Nat → List JobPosting → RunResult
  | [], _, acc => .starved acc
  | f :: rest, page, acc =>
    match f with
    | .netError => .fatal page
    | .response status doc =>
      if status = 200 then
        match doc with
        | none => .fatal page
        | some items =>
          if items.length = 0 then .finished acc page
          else
            if items.length < 10 then .finished (acc ++ processPage items) page
            else runPages rest (page + 1) (acc ++ processPage items)
      else .fatal page

/-- `main`'s collection phase: start at page 1 with an empty accumulator. -/
def runMain (fetches : List FetchOutcome) : RunResult :=
  runPages fetches 1 []

/-- The postings collected from a sequence of parsed pages, in page order. -/
def collectAll (pages : List (List RawItem)) : List JobPosting :=
  (pages.map processPage).flatten

/-- A concrete raw item whose title passes the filter. -/
def itemA : RawItem :=
  { text := "Software Engineer, Core Services", href := some "https://careers.airbnb.com/x" }

/-- What the loop guarantees of every accumulated posting: it passed the
title filter and its title has no leading or trailing whitespace. -/
def goodPosting (j : JobPosting) : Prop :=
  titleFilter j.Title = true ∧
  (∀ c, j.Title.data.head? = some c → c.isWhitespace = false) ∧
  (∀ c, j.Title.data.getLast? = some c → c.isWhitespace = false)

/-- One per-posting line, without its terminating newline. -/
def postingLine (j : JobPosting) : String :=
  "- " ++ j.Title ++ ": " ++ j.URL

/-- One per-posting body entry as written by main.go line 117:
`fmt.Sprintf("- %s: %s\n", job.Title, job.URL)`. -/
def postingEntry (j : JobPosting) : String :=
  postingLine j ++ "\n"

/-- The email body built by `sendDailyJobEmail` (main.go lines 108-122):
greeting (empty or non-empty variant), one entry per posting, footer,
signature. -/
def composeBody (jobPostings : List JobPosting) : String :=
  let b1 := if jobPostings.length = 0 then
      "Hello,\n\nNo current job postings found today.\n"
    else
      "Hello,\n\nHere are today\x27s midlevel Software Engineer job postings:\n\n"
  let b2 := jobPostings.foldl (fun b job => b ++ postingEntry job) b1
  let b3 := b2 ++ "\n You can find more job postings at https://careers.airbnb.com/positions/?_departments=engineering&_offices=united-states\n"
  b3 ++ "\nBest regards,\nYour Job Scraper"

/-- Split a character list into newline-separated lines; `cur` is the
reversed current line. -/
def linesAux (cur : List Char) : List Char → List (List Char)
  | [] => [cur.reverse]
  | c :: cs => if c = '\n' then cur.reverse :: linesAux [] cs else linesAux (c :: cur) cs

/-- The lines of a string (split on the newline character). -/
def splitLines (s : String) : List String :=
  (linesAux [] s.data).map String.mk

/-- A concrete accepted posting with a clean title and URL. -/
def jobB : JobPosting :=
  { Title := "Software Engineer II", URL := "https://careers.airbnb.com/y" }

/-- An accepted posting (it passes the title filter) whose title contains a
newline. -/
def jobBad : JobPosting :=
  { Title := "Software Engineer\n- X: Y", URL := "u" }

/-- The fixed subject (main.go line 107). -/
def subjectLine : String := "Daily Job Postings"

/-- The full message of main.go line 125:
`fmt.Sprintf("From: %s\r\nTo: %s\r\nSubject: %s\r\n\r\n%s", ...)`. -/
def composeMessage (fromAddr toAddr : String) (jobs : List JobPosting) : String :=
  "From: " ++ fromAddr ++ "\r\nTo: " ++ toAddr ++ "\r\nSubject: " ++ subjectLine
    ++ "\r\n\r\n" ++ composeBody jobs

/-- Split a character list at the first CRLF sequence, if any. -/
def breakCRLF : List Char → Option (List Char × List Char)
  | [] => none
  | c :: cs =>
    if c = '\r' ∧ cs.head? = some '\n' then some ([], cs.tail)
    else
      match breakCRLF cs with
      | some (pre, post) => some (c :: pre, post)
      | none => none

/-- `true` iff the character list contains no CRLF sequence. -/
def crlfFree : List Char → Bool
  | [] => true
  | c :: cs =>
    if c = '\r' ∧ cs.head? = some '\n' then false else crlfFree cs

/-- Drop a fixed header-name tag (such as "From: ") from a header line. -/
def stripTag (tag s : List Char) : Option (List Char) :=
  if tag.isPrefixOf s then some (s.drop tag.length) else none

/-- Modelled from the spec: a standard mail-message reader for the
`From`/`To`/`Subject` headers-plus-body layout the notifier emits (the
repository itself contains no parser).  It reads three CRLF-terminated
header lines named `From`, `To` and `Subject`, requires the blank line
separating headers from body, and returns the three header values and the
body text. -/
def parseMessageChars (msg : List Char) :
    Option (List Char × List Char × List Char × List Char) :=
  match breakCRLF msg with
  | none => none
  | some (l1, r1) =>
    match breakCRLF r1 with
    | none => none
    | some (l2, r2) =>
      match breakCRLF r2 with
      | none => none
      | some (l3, r3) =>
        match r3 with
        | '\r' :: '\n' :: body =>
          match stripTag "From: ".data l1, stripTag "To: ".data l2,
              stripTag "Subject: ".data l3 with
          | some f, some t, some s => some (f, t, s, body)
          | _, _, _ => none
        | _ => none

/-- The string-level mail-message reader. -/
def parseMessage (msg : String) : Option (String × String × String × String) :=
  (parseMessageChars msg.data).map
    (fun q => (String.mk q.1, String.mk q.2.1, String.mk q.2.2.1, String.mk q.2.2.2))

/-- The three environment variables read by `sendDailyJobEmail`
(main.go lines 100-102). -/
structure Env where
  FROM_EMAIL : String
  TO_EMAIL : String
  GOOGLE_APP_PASSWORD : String
deriving DecidableEq

/-- A delivery error from the relay (auth rejection, connection failure,
relay-side rejection). -/
inductive SmtpErr where
  | authFailure : SmtpErr
  | connectionFailure : SmtpErr
  | relayRejection : SmtpErr
deriving DecidableEq

/-- The arguments `sendDailyJobEmail` passes to `smtp.PlainAuth` and
`smtp.SendMail` (main.go lines 129-132). -/
structure SmtpRequest where
  addr : String
  authIdentity : String
  authUsername : String
  authPassword : String
  authHost : String
  sender : String
  recipients : List String
  message : String
deriving DecidableEq

/-- The request built by `sendDailyJobEmail` (main.go lines 100-132): host
and port are the literals "smtp.gmail.com" and "587"; sender, recipient and
credential come from the environment. -/
def buildSmtpRequest (env : Env) (jobs : List JobPosting) : SmtpRequest :=
  { addr := "smtp.gmail.com" ++ ":" ++ "587"
    authIdentity := ""
    authUsername := env.FROM_EMAIL
    authPassword := env.GOOGLE_APP_PASSWORD
    authHost := "smtp.gmail.com"
    sender := env.FROM_EMAIL
    recipients := [env.TO_EMAIL]
    message := composeMessage env.FROM_EMAIL env.TO_EMAIL jobs }

/-- `sendDailyJobEmail` (main.go lines 99-137) with the SMTP transport
abstracted as a function of the request: a transport error is returned to
the caller unchanged, success yields success.  The transport is invoked
exactly once, on exactly the built request. -/
def sendDailyJobEmail (env : Env) (jobs : List JobPosting)
    (transport : SmtpRequest → Except SmtpErr Unit) : Except SmtpErr Unit :=
  match transport (buildSmtpRequest env jobs) with
  | .error e => .error e
  | .ok _ => .ok ()

/-- The whole program (main.go lines 20-95): run the collection phase;
when it finishes normally, call `sendDailyJobEmail` and discard its result
(main.go line 94).  The observable process outcome is the `RunResult`. -/
def mainProgram (fetches : List FetchOutcome) (env : Env)
    (transport : SmtpRequest → Except SmtpErr Unit) : RunResult :=
  match runMain fetches with
  | .finished jobs n =>
    let _ := sendDailyJobEmail env jobs transport
    .finished jobs n
  | r => r

/-! ## Theorems -/

theorem hasInfix_iff (pat l : List Char) : hasInfix pat l = true ↔ pat <:+: l := by
  induction l with
  | nil =>
    simp [hasInfix, List.isPrefixOf_iff_prefix]
  | cons c cs ih =>
    simp [hasInfix, List.isPrefixOf_iff_prefix, ih, List.infix_cons_iff]

/-- C1.  The title filter includes a title iff it contains
"Software Engineer" and none of the exclusion substrings; in particular a
title without "Software Engineer" is always excluded. -/
theorem claimC1 (title : String) :
    (titleFilter title = true ↔
      ("Software Engineer".data <:+: title.data ∧
       ¬("Senior".data <:+: title.data) ∧
       ¬("Staff".data <:+: title.data) ∧
       ¬("Sr.".data <:+: title.data) ∧
       ¬("Principal".data <:+: title.data) ∧
       ¬("Android".data <:+: title.data) ∧
       ¬("iOS".data <:+: title.data)))
    ∧ (¬("Software Engineer".data <:+: title.data) → titleFilter title = false) := by
  constructor
  · simp [titleFilter, containsSub, Bool.and_eq_true, Bool.not_eq_true',
      Bool.eq_false_iff, hasInfix_iff, and_assoc]
  · intro h
    simp [titleFilter, containsSub]
    intro hc
    exact absurd ((hasInfix_iff _ _).mp hc) h

/-- Witness for C1 at concrete titles. -/
theorem claimC1_witness :
    titleFilter "Senior Product Manager" = false :=
  (claimC1 "Senior Product Manager").2 (by decide)

/-- Running the loop past an initial block of full (≥ 10 items) pages
accumulates their filtered postings and advances the page counter. -/
theorem runPages_skipFull (pre : List (List RawItem)) (rest : List FetchOutcome)
    (p : Nat) (acc : List JobPosting) (h : ∀ its ∈ pre, 10 ≤ its.length) :
    runPages (pre.map okPage ++ rest) p acc =
      runPages rest (p + pre.length) (acc ++ collectAll pre) := by
  induction pre generalizing p acc with
  | nil => simp [collectAll]
  | cons its pres ih =>
    have h10 : 10 ≤ its.length := h its (by simp)
    have hne : ¬ its.length = 0 := by omega
    have hlt : ¬ its.length < 10 := by omega
    have step : runPages (List.map okPage (its :: pres) ++ rest) p acc =
        runPages (List.map okPage pres ++ rest) (p + 1) (acc ++ processPage its) := by
      simp [runPages, okPage, hne, hlt]
    rw [step, ih _ _ (fun x hx => h x (List.mem_cons_of_mem _ hx))]
    have hp : p + 1 + pres.length = p + (its :: pres).length := by
      simp only [List.length_cons]
      omega
    rw [hp]
    simp [collectAll, List.append_assoc]

/-- C2.  Pagination stops after processing the first page with fewer than 10
raw items, still extracting and filtering that page; and the threshold is on
the raw count: a page with at least 10 raw items never ends pagination, no
matter how few of its items pass the filter. -/
theorem claimC2 :
    (∀ (pre : List (List RawItem)) (its : List RawItem) (rest : List FetchOutcome),
        (∀ x ∈ pre, 10 ≤ x.length) → its.length < 10 →
        runMain (pre.map okPage ++ okPage its :: rest) =
          .finished (collectAll (pre ++ [its])) (pre.length + 1))
  ∧ (∀ (pre : List (List RawItem)) (its : List RawItem) (rest : List FetchOutcome),
        (∀ x ∈ pre, 10 ≤ x.length) → 10 ≤ its.length →
        runMain (pre.map okPage ++ okPage its :: rest) =
          runPages rest (pre.length + 2) (collectAll (pre ++ [its]))) := by
  constructor
  · intro pre its rest h hlt
    rw [runMain, runPages_skipFull pre _ 1 [] h]
    by_cases hz : its.length = 0
    · have hits : its = [] := List.length_eq_zero.mp hz
      subst hits
      simp [runPages, okPage, collectAll, processPage, Nat.add_comm]
    · simp [runPages, okPage, hz, hlt, collectAll, Nat.add_comm]
  · intro pre its rest h hge
    rw [runMain, runPages_skipFull pre _ 1 [] h]
    have hz : ¬ its.length = 0 := by omega
    have hlt : ¬ its.length < 10 := by omega
    simp [runPages, okPage, hz, hlt, collectAll]
    have hp : 1 + pre.length + 1 = pre.length + 2 := by omega
    rw [hp]

/-- Witness for C2: a single page of one matching item ends pagination with
that item collected. -/
theorem claimC2_witness :
    runMain (List.map okPage [] ++ okPage [itemA] :: []) =
      .finished (collectAll ([] ++ [[itemA]])) (List.length ([] : List (List RawItem)) + 1) :=
  claimC2.1 [] [itemA] [] (fun x hx => absurd hx (List.not_mem_nil x)) (by decide)

/-- C3.  A fetched page with zero raw items ends pagination normally: the
result is `finished` (not `fatal`), nothing is extracted from that page, and
it is counted as fetched. -/
theorem claimC3 (pre : List (List RawItem)) (rest : List FetchOutcome)
    (h : ∀ x ∈ pre, 10 ≤ x.length) :
    runMain (pre.map okPage ++ okPage [] :: rest) =
      .finished (collectAll pre) (pre.length + 1) := by
  rw [runMain, runPages_skipFull pre _ 1 [] h]
  simp [runPages, okPage, Nat.add_comm]

/-- Witness for C3: an immediately empty first page gives an empty run. -/
theorem claimC3_witness :
    runMain (List.map okPage [] ++ okPage [] :: []) =
      .finished (collectAll []) (List.length ([] : List (List RawItem)) + 1) :=
  claimC3 [] [] (fun x hx => absurd hx (List.not_mem_nil x))

/-- C8.  Any fatal fetch outcome — network error, non-200 status, or HTML
parse failure — on the page after a block of full pages aborts the run at
that page, for every possible continuation `rest` (so no further page is
fetched), and a `fatal` outcome is never the `finished` outcome that alone
leads to an email being sent. -/
theorem claimC8 (pre : List (List RawItem)) (rest : List FetchOutcome)
    (h : ∀ x ∈ pre, 10 ≤ x.length) :
    (runMain (pre.map okPage ++ FetchOutcome.netError :: rest) = .fatal (pre.length + 1))
  ∧ (∀ (status : Nat) (doc : Option (List RawItem)), status ≠ 200 →
      runMain (pre.map okPage ++ FetchOutcome.response status doc :: rest) =
        .fatal (pre.length + 1))
  ∧ (runMain (pre.map okPage ++ FetchOutcome.response 200 none :: rest) =
      .fatal (pre.length + 1))
  ∧ (∀ jobs n, RunResult.fatal (pre.length + 1) ≠ RunResult.finished jobs n) := by
  refine ⟨?_, ?_, ?_, ?_⟩
  · rw [runMain, runPages_skipFull pre _ 1 [] h]
    simp [runPages, Nat.add_comm]
  · intro status doc hs
    rw [runMain, runPages_skipFull pre _ 1 [] h]
    simp [runPages, hs, Nat.add_comm]
  · rw [runMain, runPages_skipFull pre _ 1 [] h]
    simp [runPages, Nat.add_comm]
  · intro jobs n
    simp

/-- Witness for C8: a network error on the very first fetch is fatal. -/
theorem claimC8_witness :
    runMain (List.map okPage [] ++ FetchOutcome.netError :: []) =
      .fatal (List.length ([] : List (List RawItem)) + 1) :=
  (claimC8 [] [] (fun x hx => absurd hx (List.not_mem_nil x))).1

theorem head?_dropWhile_false (p : Char → Bool) (l : List Char) :
    ∀ c, (l.dropWhile p).head? = some c → p c = false := by
  induction l with
  | nil => simp [List.dropWhile]
  | cons a as ih =>
    intro c hc
    rw [List.dropWhile_cons] at hc
    by_cases hpa : p a = true
    · rw [if_pos hpa] at hc
      exact ih c hc
    · rw [if_neg hpa] at hc
      simp only [List.head?_cons, Option.some.injEq] at hc
      subst hc
      exact Bool.eq_false_iff.mpr hpa

theorem getLast?_of_suffix {l₁ l₂ : List Char} (h : l₁ <:+ l₂) (hne : l₁ ≠ []) :
    l₂.getLast? = l₁.getLast? := by
  obtain ⟨t, rfl⟩ := h
  rw [List.getLast?_append]
  cases hl : l₁.getLast? with
  | none =>
    rw [List.getLast?_eq_none_iff] at hl
    exact absurd hl hne
  | some c => simp

/-- The first character of a trimmed string is not whitespace. -/
theorem trimSpace_head (l : List Char) :
    ∀ c, (trimSpace l).head? = some c → c.isWhitespace = false := by
  intro c hc
  rw [trimSpace, List.head?_reverse] at hc
  have hne : List.dropWhile Char.isWhitespace
      (List.dropWhile Char.isWhitespace l).reverse ≠ [] := by
    intro h0
    rw [h0] at hc
    simp at hc
  have hsuf : List.dropWhile Char.isWhitespace
      (List.dropWhile Char.isWhitespace l).reverse <:+
      (List.dropWhile Char.isWhitespace l).reverse :=
    List.dropWhile_suffix _
  have h2 : ((List.dropWhile Char.isWhitespace l).reverse).getLast? = some c := by
    rw [getLast?_of_suffix hsuf hne]
    exact hc
  rw [List.getLast?_reverse] at h2
  exact head?_dropWhile_false _ _ c h2

/-- The last character of a trimmed string is not whitespace. -/
theorem trimSpace_getLast (l : List Char) :
    ∀ c, (trimSpace l).getLast? = some c → c.isWhitespace = false := by
  intro c hc
  rw [trimSpace, List.getLast?_reverse] at hc
  exact head?_dropWhile_false _ _ c hc

/-- Every posting produced from a page is good. -/
theorem processPage_good (items : List RawItem) :
    ∀ j ∈ processPage items, goodPosting j := by
  intro j hj
  rw [processPage, List.mem_filterMap] at hj
  obtain ⟨a, _, ha⟩ := hj
  by_cases hf : titleFilter (extractItem a).Title = true
  · rw [if_pos hf] at ha
    cases ha
    refine ⟨hf, ?_, ?_⟩
    · intro c hc
      exact trimSpace_head a.text.data c hc
    · intro c hc
      exact trimSpace_getLast a.text.data c hc
  · rw [if_neg hf] at ha
    cases ha

/-- C10.  If every posting in the accumulator is good (passed the title
filter, title trimmed), then whenever the loop ends with a job list, every
posting in it is good and the starting accumulator is a prefix of it: the
accumulation is append-only, earlier pages before later ones. -/
theorem claimC10 (fetches : List FetchOutcome) (p : Nat) (acc jobs : List JobPosting)
    (n : Nat) (hacc : ∀ j ∈ acc, goodPosting j)
    (hrun : runPages fetches p acc = .finished jobs n ∨
            runPages fetches p acc = .starved jobs) :
    (∀ j ∈ jobs, goodPosting j) ∧ acc <+: jobs := by
  induction fetches generalizing p acc with
  | nil =>
    rcases hrun with h | h
    · simp [runPages] at h
    · simp only [runPages, RunResult.starved.injEq] at h
      subst h
      exact ⟨hacc, List.prefix_refl _⟩
  | cons f rest ih =>
    cases f with
    | netError =>
      rcases hrun with h | h <;> simp [runPages] at h
    | response status doc =>
      by_cases hs : status = 200
      · subst hs
        cases doc with
        | none => rcases hrun with h | h <;> simp [runPages] at h
        | some items =>
          by_cases hz : items.length = 0
          · rcases hrun with h | h
            · rw [show runPages (FetchOutcome.response 200 (some items) :: rest) p acc
                  = RunResult.finished acc p from by simp [runPages, hz]] at h
              injection h with h1 h2
              subst h1
              exact ⟨hacc, List.prefix_refl _⟩
            · simp [runPages, hz] at h
          · by_cases hlt : items.length < 10
            · rcases hrun with h | h
              · rw [show runPages (FetchOutcome.response 200 (some items) :: rest) p acc
                    = RunResult.finished (acc ++ processPage items) p from by
                  simp [runPages, hz, hlt]] at h
                injection h with h1 h2
                subst h1
                refine ⟨?_, List.prefix_append _ _⟩
                intro j hj
                rcases List.mem_append.mp hj with hj | hj
                · exact hacc j hj
                · exact processPage_good items j hj
              · simp [runPages, hz, hlt] at h
            · have hstep : runPages (FetchOutcome.response 200 (some items) :: rest) p acc =
                  runPages rest (p + 1) (acc ++ processPage items) := by
                simp [runPages, hz, hlt]
              rw [hstep] at hrun
              have hacc2 : ∀ j ∈ acc ++ processPage items, goodPosting j := by
                intro j hj
                rcases List.mem_append.mp hj with hj | hj
                · exact hacc j hj
                · exact processPage_good items j hj
              obtain ⟨hgood, hpre⟩ := ih (p + 1) (acc ++ processPage items) hacc2 hrun
              exact ⟨hgood, (List.prefix_append _ _).trans hpre⟩
      · rcases hrun with h | h <;> simp [runPages, hs] at h

/-- Witness for C10: an empty first page yields an empty, trivially good
job list. -/
theorem claimC10_witness :
    (∀ j ∈ ([] : List JobPosting), goodPosting j) ∧
      ([] : List JobPosting) <+: [] :=
  claimC10 [okPage []] 1 [] [] 1
    (fun j hj => absurd hj (List.not_mem_nil j)) (Or.inl rfl)

/-- C5.  With no accepted postings the body consists of the greeting, the
"no postings found" notice, the footer and the signature; it contains the
notice as a substring and no line of the per-posting form. -/
theorem claimC5 :
    splitLines (composeBody []) =
      ["Hello,", "", "No current job postings found today.", "",
       " You can find more job postings at https://careers.airbnb.com/positions/?_departments=engineering&_offices=united-states",
       "", "Best regards,", "Your Job Scraper"]
    ∧ containsSub (composeBody []) "No current job postings found today." = true
    ∧ (splitLines (composeBody [])).filter
        (fun l => ("- ".data).isPrefixOf l.data) = [] := by
  refine ⟨by decide, by decide, by decide⟩

theorem strData_append (a b : String) : (a ++ b).data = a.data ++ b.data := rfl

theorem linesAux_append_noNL (xs : List Char) (h : ∀ c ∈ xs, c ≠ '\n') :
    ∀ (cur rest : List Char),
      linesAux cur (xs ++ rest) = linesAux (xs.reverse ++ cur) rest := by
  induction xs with
  | nil =>
    intro cur rest
    simp
  | cons a as ih =>
    intro cur rest
    have ha : ¬ a = '\n' := h a (by simp)
    simp only [List.cons_append, linesAux, if_neg ha, List.append_eq]
    rw [ih (fun c hc => h c (List.mem_cons_of_mem _ hc)) (a :: cur) rest]
    have he : as.reverse ++ a :: cur = (a :: as).reverse ++ cur := by
      simp
    rw [he]

theorem linesAux_newline (cur rest : List Char) :
    linesAux cur ('\n' :: rest) = cur.reverse :: linesAux [] rest := by
  simp [linesAux]

theorem linesAux_line (xs rest : List Char) (h : ∀ c ∈ xs, c ≠ '\n') :
    linesAux [] (xs ++ '\n' :: rest) = xs :: linesAux [] rest := by
  rw [linesAux_append_noNL xs h [] ('\n' :: rest), linesAux_newline]
  simp

theorem foldl_entries_data (jobs : List JobPosting) (b : String) :
    (jobs.foldl (fun b job => b ++ postingEntry job) b).data =
      b.data ++ (jobs.map (fun j => (postingEntry j).data)).flatten := by
  induction jobs generalizing b with
  | nil => simp
  | cons j js ih =>
    simp only [List.foldl_cons, List.map_cons, List.flatten_cons]
    rw [ih, strData_append]
    simp [List.append_assoc]

theorem noNL_append {a b : List Char} (ha : ∀ c ∈ a, c ≠ '\n')
    (hb : ∀ c ∈ b, c ≠ '\n') : ∀ c ∈ a ++ b, c ≠ '\n' := by
  intro c hc
  rcases List.mem_append.mp hc with h | h
  · exact ha c h
  · exact hb c h

theorem postingLine_noNL (j : JobPosting) (ht : ∀ c ∈ j.Title.data, c ≠ '\n')
    (hu : ∀ c ∈ j.URL.data, c ≠ '\n') :
    ∀ c ∈ (postingLine j).data, c ≠ '\n' := by
  rw [postingLine, strData_append, strData_append, strData_append]
  exact noNL_append (noNL_append (noNL_append (by decide) ht) (by decide)) hu

theorem linesAux_flatEntries (jobs : List JobPosting)
    (h : ∀ j ∈ jobs, ∀ c ∈ (postingLine j).data, c ≠ '\n') (rest : List Char) :
    linesAux [] ((jobs.map (fun j => (postingEntry j).data)).flatten ++ rest) =
      (jobs.map (fun j => (postingLine j).data)) ++ linesAux [] rest := by
  induction jobs with
  | nil => simp
  | cons j js ih =>
    simp only [List.map_cons, List.flatten_cons, List.append_assoc]
    have hd : (postingEntry j).data = (postingLine j).data ++ ['\n'] := by
      rw [postingEntry, strData_append]
    rw [hd, List.append_assoc]
    have hshape : (['\n'] : List Char) ++ ((js.map (fun j => (postingEntry j).data)).flatten ++ rest) =
        '\n' :: ((js.map (fun j => (postingEntry j).data)).flatten ++ rest) := rfl
    rw [hshape, linesAux_line _ _ (h j (by simp)),
      ih (fun x hx => h x (List.mem_cons_of_mem _ hx))]
    rfl

theorem linesAux_greet (X : List Char) :
    linesAux [] ("Hello,\n\nHere are today\x27s midlevel Software Engineer job postings:\n\n".data ++ X) =
      "Hello,".data :: [] :: "Here are today\x27s midlevel Software Engineer job postings:".data
        :: [] :: linesAux [] X := by
  simp [linesAux]

theorem strMk_data (s : String) : String.mk s.data = s := rfl

theorem linesAux_footer :
    linesAux [] ("\n You can find more job postings at https://careers.airbnb.com/positions/?_departments=engineering&_offices=united-states\n".data ++
        "\nBest regards,\nYour Job Scraper".data) =
      [[], " You can find more job postings at https://careers.airbnb.com/positions/?_departments=engineering&_offices=united-states".data,
       [], "Best regards,".data, "Your Job Scraper".data] := by
  decide

theorem composeBody_data (jobs : List JobPosting) (hne : jobs ≠ []) :
    (composeBody jobs).data =
      "Hello,\n\nHere are today\x27s midlevel Software Engineer job postings:\n\n".data ++
        ((jobs.map (fun j => (postingEntry j).data)).flatten ++
          ("\n You can find more job postings at https://careers.airbnb.com/positions/?_departments=engineering&_offices=united-states\n".data ++
            "\nBest regards,\nYour Job Scraper".data)) := by
  have hz : ¬ jobs.length = 0 := by
    simpa [List.length_eq_zero] using hne
  simp only [composeBody, if_neg hz]
  rw [strData_append, strData_append, foldl_entries_data]
  simp only [List.append_assoc]

theorem isPrefixOf_postingLine (j : JobPosting) :
    ("- ".data).isPrefixOf (postingLine j).data = true := by
  rw [postingLine, strData_append, strData_append, strData_append]
  simp only [List.append_assoc]
  exact (List.isPrefixOf_iff_prefix).mpr (List.prefix_append _ _)

/-- C4.  For a nonempty list of accepted postings whose titles and URLs are
newline-free, the body's lines are exactly the greeting lines, then one
line `- <title>: <url>` per posting in acceptance order, then the footer
lines; consequently the lines starting with "- " are exactly the N posting
lines in order. -/
theorem claimC4 (jobs : List JobPosting) (hne : jobs ≠ [])
    (hclean : ∀ j ∈ jobs, (∀ c ∈ j.Title.data, c ≠ '\n') ∧ (∀ c ∈ j.URL.data, c ≠ '\n')) :
    (splitLines (composeBody jobs) =
      ["Hello,", "",
       "Here are today\x27s midlevel Software Engineer job postings:", ""]
      ++ jobs.map postingLine
      ++ ["",
          " You can find more job postings at https://careers.airbnb.com/positions/?_departments=engineering&_offices=united-states",
          "", "Best regards,", "Your Job Scraper"])
    ∧ (splitLines (composeBody jobs)).filter
        (fun l => ("- ".data).isPrefixOf l.data) = jobs.map postingLine := by
  have hgoodlines : ∀ j ∈ jobs, ∀ c ∈ (postingLine j).data, c ≠ '\n' :=
    fun j hj => postingLine_noNL j (hclean j hj).1 (hclean j hj).2
  have hlines : linesAux [] (composeBody jobs).data =
      ["Hello,".data, [],
       "Here are today\x27s midlevel Software Engineer job postings:".data, []]
      ++ jobs.map (fun j => (postingLine j).data)
      ++ [[], " You can find more job postings at https://careers.airbnb.com/positions/?_departments=engineering&_offices=united-states".data,
          [], "Best regards,".data, "Your Job Scraper".data] := by
    rw [composeBody_data jobs hne, linesAux_greet,
      linesAux_flatEntries jobs hgoodlines, linesAux_footer]
    simp
  have hsplit : splitLines (composeBody jobs) =
      ["Hello,", "",
       "Here are today\x27s midlevel Software Engineer job postings:", ""]
      ++ jobs.map postingLine
      ++ ["",
          " You can find more job postings at https://careers.airbnb.com/positions/?_departments=engineering&_offices=united-states",
          "", "Best regards,", "Your Job Scraper"] := by
    rw [splitLines, hlines]
    simp only [List.map_append, List.map_cons, List.map_nil, List.map_map]
    simp [Function.comp, strMk_data]
  refine ⟨hsplit, ?_⟩
  rw [hsplit, List.filter_append, List.filter_append]
  have h1 : List.filter (fun l => ("- ".data).isPrefixOf l.data)
      ["Hello,", "",
       "Here are today\x27s midlevel Software Engineer job postings:", ""] = [] := by
    decide
  have h2 : List.filter (fun l => ("- ".data).isPrefixOf l.data)
      ["",
       " You can find more job postings at https://careers.airbnb.com/positions/?_departments=engineering&_offices=united-states",
       "", "Best regards,", "Your Job Scraper"] = [] := by
    decide
  have h3 : List.filter (fun l => ("- ".data).isPrefixOf l.data)
      (jobs.map postingLine) = jobs.map postingLine := by
    apply List.filter_eq_self.mpr
    intro a ha
    obtain ⟨j, _, rfl⟩ := List.mem_map.mp ha
    exact isPrefixOf_postingLine j
  rw [h1, h2, h3]
  simp

/-- Witness for C4 with a single accepted posting. -/
theorem claimC4_witness :
    (splitLines (composeBody [jobB]) =
      ["Hello,", "",
       "Here are today\x27s midlevel Software Engineer job postings:", ""]
      ++ [jobB].map postingLine
      ++ ["",
          " You can find more job postings at https://careers.airbnb.com/positions/?_departments=engineering&_offices=united-states",
          "", "Best regards,", "Your Job Scraper"])
    ∧ (splitLines (composeBody [jobB])).filter
        (fun l => ("- ".data).isPrefixOf l.data) = [jobB].map postingLine :=
  claimC4 [jobB] (by simp)
    (fun j hj => by
      rcases List.mem_singleton.mp hj with rfl
      exact ⟨by decide, by decide⟩)

/-- Counterexample to C4 as stated: for this accepted posting the composed
body has no line equal to `- <title>: <url>` at all (the embedded newline
splits it), so the body does not contain one such line per posting. -/
theorem claimC4_counterexample :
    titleFilter jobBad.Title = true ∧
    ¬ (postingLine jobBad ∈ splitLines (composeBody [jobBad])) := by
  decide

theorem crlfFree_tail {c : Char} {cs : List Char} (h : crlfFree (c :: cs) = true) :
    crlfFree cs = true := by
  by_cases hp : c = '\r' ∧ cs.head? = some '\n'
  · simp only [crlfFree, if_pos hp] at h
    cases h
  · simpa only [crlfFree, if_neg hp] using h

theorem breakCRLF_append (l rest : List Char) (h : crlfFree l = true) :
    breakCRLF (l ++ '\r' :: '\n' :: rest) = some (l, rest) := by
  induction l with
  | nil => simp [breakCRLF]
  | cons c cs ih =>
    have hp : ¬ (c = '\r' ∧ (cs ++ '\r' :: '\n' :: rest).head? = some '\n') := by
      rintro ⟨rfl, hh⟩
      cases cs with
      | nil => simp at hh
      | cons d ds =>
        simp only [List.cons_append, List.head?_cons, Option.some.injEq] at hh
        subst hh
        have : crlfFree ('\r' :: '\n' :: ds) = false := by
          simp [crlfFree]
        rw [this] at h
        cases h
    simp only [List.cons_append, List.append_eq, breakCRLF, if_neg hp]
    rw [ih (crlfFree_tail h)]

theorem crlfFree_append_of_no_cr (a b : List Char) (ha : ∀ c ∈ a, c ≠ '\r')
    (hb : crlfFree b = true) : crlfFree (a ++ b) = true := by
  induction a with
  | nil => simpa
  | cons c cs ih =>
    have hp : ¬ (c = '\r' ∧ (cs ++ b).head? = some '\n') := by
      rintro ⟨rfl, _⟩
      exact ha '\r' (by simp) rfl
    simp only [List.cons_append, List.append_eq, crlfFree, if_neg hp]
    exact ih (fun x hx => ha x (List.mem_cons_of_mem _ hx))

theorem stripTag_append (tag s : List Char) : stripTag tag (tag ++ s) = some s := by
  rw [stripTag, if_pos ((List.isPrefixOf_iff_prefix).mpr (List.prefix_append _ _))]
  simp

/-- C6 (amended).  If the sender and recipient addresses contain no CRLF
sequence, parsing the composed message recovers exactly the sender, the
recipient, the subject and the body. -/
theorem claimC6 (fromAddr toAddr : String) (jobs : List JobPosting)
    (hf : crlfFree fromAddr.data = true) (ht : crlfFree toAddr.data = true) :
    parseMessage (composeMessage fromAddr toAddr jobs) =
      some (fromAddr, toAddr, subjectLine, composeBody jobs) := by
  have hsplit2 : "\r\nTo: ".data = '\r' :: '\n' :: "To: ".data := by decide
  have hsplit3 : "\r\nSubject: ".data = '\r' :: '\n' :: "Subject: ".data := by decide
  have hsplit4 : "\r\n\r\n".data = '\r' :: '\n' :: '\r' :: '\n' :: ([] : List Char) := by
    decide
  have hmsg : (composeMessage fromAddr toAddr jobs).data =
      "From: ".data ++ (fromAddr.data ++ ('\r' :: '\n' ::
        ("To: ".data ++ (toAddr.data ++ ('\r' :: '\n' ::
          ("Subject: ".data ++ (subjectLine.data ++ ('\r' :: '\n' :: '\r' :: '\n' ::
            (composeBody jobs).data)))))))) := by
    simp only [composeMessage, strData_append, hsplit2, hsplit3, hsplit4]
    simp [List.append_assoc]
  have hb1 : breakCRLF ("From: ".data ++ (fromAddr.data ++ ('\r' :: '\n' ::
      ("To: ".data ++ (toAddr.data ++ ('\r' :: '\n' ::
        ("Subject: ".data ++ (subjectLine.data ++ ('\r' :: '\n' :: '\r' :: '\n' ::
          (composeBody jobs).data))))))))) =
      some ("From: ".data ++ fromAddr.data,
        "To: ".data ++ (toAddr.data ++ ('\r' :: '\n' ::
          ("Subject: ".data ++ (subjectLine.data ++ ('\r' :: '\n' :: '\r' :: '\n' ::
            (composeBody jobs).data)))))) := by
    rw [← List.append_assoc]
    exact breakCRLF_append _ _ (crlfFree_append_of_no_cr _ _ (by decide) hf)
  have hb2 : breakCRLF ("To: ".data ++ (toAddr.data ++ ('\r' :: '\n' ::
      ("Subject: ".data ++ (subjectLine.data ++ ('\r' :: '\n' :: '\r' :: '\n' ::
        (composeBody jobs).data)))))) =
      some ("To: ".data ++ toAddr.data,
        "Subject: ".data ++ (subjectLine.data ++ ('\r' :: '\n' :: '\r' :: '\n' ::
          (composeBody jobs).data))) := by
    rw [← List.append_assoc]
    exact breakCRLF_append _ _ (crlfFree_append_of_no_cr _ _ (by decide) ht)
  have hb3 : breakCRLF ("Subject: ".data ++ (subjectLine.data ++ ('\r' :: '\n' :: '\r' :: '\n' ::
      (composeBody jobs).data))) =
      some ("Subject: ".data ++ subjectLine.data,
        '\r' :: '\n' :: (composeBody jobs).data) := by
    rw [← List.append_assoc]
    exact breakCRLF_append _ _ (crlfFree_append_of_no_cr _ _ (by decide) (by decide))
  rw [parseMessage, hmsg]
  simp only [parseMessageChars, hb1, hb2, hb3, stripTag_append]
  simp [strMk_data]

/-- Witness for C6 at concrete CRLF-free addresses. -/
theorem claimC6_witness :
    parseMessage (composeMessage "sender@example.com" "rcpt@example.com" []) =
      some ("sender@example.com", "rcpt@example.com", subjectLine, composeBody []) :=
  claimC6 "sender@example.com" "rcpt@example.com" [] (by decide) (by decide)

/-- Counterexample to C6 as stated: a sender address containing a CRLF
sequence injects a header line, and the parse does not recover the composed
values. -/
theorem claimC6_counterexample :
    parseMessage (composeMessage "a@b.c\r\nBcc: evil@x.y" "d@e.f" []) ≠
      some ("a@b.c\r\nBcc: evil@x.y", "d@e.f", subjectLine, composeBody []) := by
  decide

/-- C7 (amended).  The sender, recipient and credential used by the
delivery attempt are exactly the externally supplied environment values,
and the composed message is built from them; the relay host and port are
the hardcoded literals "smtp.gmail.com" and "587". -/
theorem claimC7 (env : Env) (jobs : List JobPosting) :
    (buildSmtpRequest env jobs).authUsername = env.FROM_EMAIL ∧
    (buildSmtpRequest env jobs).authPassword = env.GOOGLE_APP_PASSWORD ∧
    (buildSmtpRequest env jobs).sender = env.FROM_EMAIL ∧
    (buildSmtpRequest env jobs).recipients = [env.TO_EMAIL] ∧
    (buildSmtpRequest env jobs).message =
      composeMessage env.FROM_EMAIL env.TO_EMAIL jobs ∧
    (buildSmtpRequest env jobs).addr = "smtp.gmail.com:587" ∧
    (buildSmtpRequest env jobs).authHost = "smtp.gmail.com" := by
  refine ⟨rfl, rfl, rfl, rfl, rfl, rfl, rfl⟩

/-- Counterexample to C7 as stated: the relay host and port of the delivery
attempt are the same fixed literal for two different external environments,
so they are hardcoded, not supplied externally. -/
theorem claimC7_counterexample :
    (buildSmtpRequest ⟨"a@x.com", "b@y.com", "pw1"⟩ []).addr = "smtp.gmail.com:587" ∧
    (buildSmtpRequest ⟨"c@z.org", "d@w.org", "pw2"⟩ []).addr = "smtp.gmail.com:587" ∧
    (buildSmtpRequest ⟨"a@x.com", "b@y.com", "pw1"⟩ []).authHost = "smtp.gmail.com" ∧
    (buildSmtpRequest ⟨"c@z.org", "d@w.org", "pw2"⟩ []).authHost = "smtp.gmail.com" := by
  refine ⟨rfl, rfl, rfl, rfl⟩

/-- C9.  A transport failure is returned to the caller as that same error
value, and the caller discards it: the observable process outcome is
identical no matter what the transport returns. -/
theorem claimC9 :
    (∀ (env : Env) (jobs : List JobPosting)
        (transport : SmtpRequest → Except SmtpErr Unit) (e : SmtpErr),
      transport (buildSmtpRequest env jobs) = .error e →
      sendDailyJobEmail env jobs transport = .error e)
    ∧ (∀ (fetches : List FetchOutcome) (env : Env)
        (t₁ t₂ : SmtpRequest → Except SmtpErr Unit),
      mainProgram fetches env t₁ = mainProgram fetches env t₂) := by
  constructor
  · intro env jobs transport e he
    rw [sendDailyJobEmail, he]
  · intro fetches env t₁ t₂
    rw [mainProgram, mainProgram]

/-- Witness for C9: an authentication failure is propagated unchanged. -/
theorem claimC9_witness :
    sendDailyJobEmail ⟨"a@x.com", "b@y.com", "pw"⟩ []
      (fun _ => .error SmtpErr.authFailure) = .error SmtpErr.authFailure :=
  claimC9.1 ⟨"a@x.com", "b@y.com", "pw"⟩ [] (fun _ => .error SmtpErr.authFailure)
    SmtpErr.authFailure rfl
